import Mathlib

/-!
# Verification of `highdicom.spatial`

A shallow embedding of the spatial-transform core (`src/highdicom/spatial.py`):
building rotation bases from DICOM direction cosines, forward/inverse affine
transforms between the pixel matrix and the frame of reference, applying those
transforms to coordinates, and extracting a planar rotation angle.

Modelling conventions:
* Python floats are modelled as exact rationals (`ℚ`); "within floating
  tolerance" in the specification becomes exact equality.
* `np.arctan2` and `np.degrees` act on real numbers, modelled over `ℝ`.
* `numpy` matrices become `Matrix (Fin n) (Fin n) ℚ`; `np.dot(A, v)` becomes
  `Matrix.mulVec`.
* `np.linalg.inv` raises `LinAlgError` on a singular matrix; we model the
  inverse builder as returning `Option`, with `none` standing for the raised
  error (the spec's `SingularTransform`).  For a 3×3 matrix, exact singularity
  is `det = 0`, and the inverse is the adjugate divided by the determinant.
* `compute_rotation` raises `ValueError` (the spec's `InvalidGeometry`) in two
  distinguishable ways; we model the result as `Except GeometryError ℝ`.
* Python `Sequence[float]` coordinate arguments are modelled as `List ℚ`,
  indexed with `List.getD` (the claims only ever use lists long enough that
  the default is never taken, matching Python's in-bounds indexing).
-/

namespace HighdicomSpatial

/-- `create_rotation_matrix(image_orientation)`: the 3×3 matrix whose columns
are the row cosines (`image_orientation[:3]`), the column cosines
(`image_orientation[3:]`) and their cross product `n = row × column`. -/
def create_rotation_matrix (image_orientation : List ℚ) :
    Matrix (Fin 3) (Fin 3) ℚ :=
  let r0 := image_orientation.getD 0 0
  let r1 := image_orientation.getD 1 0
  let r2 := image_orientation.getD 2 0
  let c0 := image_orientation.getD 3 0
  let c1 := image_orientation.getD 4 0
  let c2 := image_orientation.getD 5 0
  -- np.column_stack([row_cosines, column_cosines, np.cross(row, column)])
  !![r0, c0, r1 * c2 - r2 * c1;
     r1, c1, r2 * c0 - r0 * c2;
     r2, c2, r0 * c1 - r1 * c0]

/-- Determinant of a 3×3 matrix, by cofactor expansion along the first row. -/
def det3 (A : Matrix (Fin 3) (Fin 3) ℚ) : ℚ :=
  A 0 0 * (A 1 1 * A 2 2 - A 1 2 * A 2 1)
    - A 0 1 * (A 1 0 * A 2 2 - A 1 2 * A 2 0)
    + A 0 2 * (A 1 0 * A 2 1 - A 1 1 * A 2 0)

/-- Adjugate (transposed cofactor matrix) of a 3×3 matrix. -/
def adj3 (A : Matrix (Fin 3) (Fin 3) ℚ) : Matrix (Fin 3) (Fin 3) ℚ :=
  !![A 1 1 * A 2 2 - A 1 2 * A 2 1, A 0 2 * A 2 1 - A 0 1 * A 2 2,
       A 0 1 * A 1 2 - A 0 2 * A 1 1;
     A 1 2 * A 2 0 - A 1 0 * A 2 2, A 0 0 * A 2 2 - A 0 2 * A 2 0,
       A 0 2 * A 1 0 - A 0 0 * A 1 2;
     A 1 0 * A 2 1 - A 1 1 * A 2 0, A 0 1 * A 2 0 - A 0 0 * A 2 1,
       A 0 0 * A 1 1 - A 0 1 * A 1 0]

/-- Exact inverse of a nonsingular 3×3 matrix (`np.linalg.inv` on a 3×3
input, in exact arithmetic): adjugate over determinant. -/
def inv3 (A : Matrix (Fin 3) (Fin 3) ℚ) : Matrix (Fin 3) (Fin 3) ℚ :=
  (det3 A)⁻¹ • adj3 A

/-- The 4×4 block matrix `np.row_stack([np.column_stack([L, t]), [0,0,0,1]])`:
linear block `L`, translation column `t`, homogeneous last row. -/
def to_affine (L : Matrix (Fin 3) (Fin 3) ℚ) (t : Fin 3 → ℚ) :
    Matrix (Fin 4) (Fin 4) ℚ :=
  !![L 0 0, L 0 1, L 0 2, t 0;
     L 1 0, L 1 1, L 1 2, t 1;
     L 2 0, L 2 1, L 2 2, t 2;
     0, 0, 0, 1]

/-- `build_transform(image_position, image_orientation, pixel_spacing)`:
scale rotation column 0 by `row_spacing = pixel_spacing[1]` and column 1 by
`column_spacing = pixel_spacing[0]` (column 2, the normal, stays unscaled),
then assemble the 4×4 affine with the position as translation. -/
def build_transform (image_position : List ℚ) (image_orientation : List ℚ)
    (pixel_spacing : List ℚ) : Matrix (Fin 4) (Fin 4) ℚ :=
  let translation : Fin 3 → ℚ :=
    ![image_position.getD 0 0, image_position.getD 1 0, image_position.getD 2 0]
  let rotation := create_rotation_matrix image_orientation
  let column_spacing := pixel_spacing.getD 0 0
  let row_spacing := pixel_spacing.getD 1 0
  let scaled : Matrix (Fin 3) (Fin 3) ℚ := Matrix.of fun i j =>
    if j = 0 then rotation i j * row_spacing
    else if j = 1 then rotation i j * column_spacing
    else rotation i j
  to_affine scaled translation

/-- The scaled 3×3 linear block inverted by `build_inverse_transform`:
rotation column 0 scaled by `row_spacing = pixel_spacing[1]`, column 1 by
`column_spacing = pixel_spacing[0]`, column 2 by `spacing_between_slices`. -/
def inverse_linear_block (image_orientation : List ℚ) (pixel_spacing : List ℚ)
    (spacing_between_slices : ℚ) : Matrix (Fin 3) (Fin 3) ℚ :=
  let rotation := create_rotation_matrix image_orientation
  let column_spacing := pixel_spacing.getD 0 0
  let row_spacing := pixel_spacing.getD 1 0
  Matrix.of fun i j =>
    if j = 0 then rotation i j * row_spacing
    else if j = 1 then rotation i j * column_spacing
    else rotation i j * spacing_between_slices

/-- `build_inverse_transform(position, orientation, pixel_spacing,
spacing_between_slices)`: invert the scaled 3×3 block (`none` models the
`LinAlgError` / `SingularTransform` raised on a singular block) and assemble
the 4×4 affine with translation `-inv_rotation · position`. -/
def build_inverse_transform (image_position : List ℚ)
    (image_orientation : List ℚ) (pixel_spacing : List ℚ)
    (spacing_between_slices : ℚ) : Option (Matrix (Fin 4) (Fin 4) ℚ) :=
  let translation : Fin 3 → ℚ :=
    ![image_position.getD 0 0, image_position.getD 1 0, image_position.getD 2 0]
  let scaled := inverse_linear_block image_orientation pixel_spacing
    spacing_between_slices
  if det3 scaled = 0 then none
  else
    let inv_rotation := inv3 scaled
    some (to_affine inv_rotation (-(inv_rotation.mulVec translation)))

/-- `apply_transform(coordinate, affine)`: read `coordinate[0]` (column) and
`coordinate[1]` (row), pad to the homogeneous point `(column, row, 0, 1)`,
multiply by the 4×4 matrix, return the first three components. -/
def apply_transform (coordinate : List ℚ) (affine : Matrix (Fin 4) (Fin 4) ℚ) :
    List ℚ :=
  let column_offset := coordinate.getD 0 0
  let row_offset := coordinate.getD 1 0
  let pixel_matrix_coordinate : Fin 4 → ℚ := ![column_offset, row_offset, 0, 1]
  let physical_coordinate := affine.mulVec pixel_matrix_coordinate
  [physical_coordinate 0, physical_coordinate 1, physical_coordinate 2]

/-- `apply_inverse_transform(coordinate, affine)`: read the three components,
pad to the homogeneous point `(x, y, z, 1)`, multiply by the 4×4 matrix,
return the first three components. -/
def apply_inverse_transform (coordinate : List ℚ)
    (affine : Matrix (Fin 4) (Fin 4) ℚ) : List ℚ :=
  let x := coordinate.getD 0 0
  let y := coordinate.getD 1 0
  let z := coordinate.getD 2 0
  let physical_coordinate : Fin 4 → ℚ := ![x, y, z, 1]
  let pixel_matrix_coordinate := affine.mulVec physical_coordinate
  [pixel_matrix_coordinate 0, pixel_matrix_coordinate 1,
    pixel_matrix_coordinate 2]

/-- The two failure modes of `compute_rotation` (the spec's `InvalidGeometry`
errors): the orientation is not a planar rotation, or it is flipped. -/
inductive GeometryError where
  | notPlanar
  | flipped
deriving DecidableEq

/-- `np.arctan2 y x` over the reals: the angle of the point `(x, y)` in
`(-π, π]`-style branches (signed-zero distinctions of floating point do not
arise over `ℝ`). -/
noncomputable def atan2 (y x : ℝ) : ℝ :=
  if 0 < x then Real.arctan (y / x)
  else if x < 0 then
    if 0 ≤ y then Real.arctan (y / x) + Real.pi
    else Real.arctan (y / x) - Real.pi
  else
    if 0 < y then Real.pi / 2
    else if y < 0 then -(Real.pi / 2)
    else 0

/-- `np.degrees`: radians to degrees. -/
noncomputable def degrees (angle : ℝ) : ℝ := angle * (180 / Real.pi)

/-- The angle computed by `compute_rotation` once both checks have passed:
`atan2(-rotation[0,1], rotation[0,0])`, converted to degrees on request. -/
noncomputable def rotation_angle (image_orientation : List ℚ)
    (in_degrees : Bool) : ℝ :=
  let rotation := create_rotation_matrix image_orientation
  let angle := atan2 (-((rotation 0 1 : ℚ) : ℝ)) ((rotation 0 0 : ℚ) : ℝ)
  if in_degrees then degrees angle else angle

/-- `compute_rotation(image_orientation, in_degrees)`: raise `notPlanar` when
`image_orientation[2] != 0.0 or image_orientation[5] != 0.0`; otherwise build
the rotation basis and raise `flipped` when its `[2,2]` entry is `< 0.0`;
otherwise return `atan2(-rotation[0,1], rotation[0,0])`, in degrees when
requested. -/
noncomputable def compute_rotation (image_orientation : List ℚ)
    (in_degrees : Bool) : Except GeometryError ℝ :=
  if image_orientation.getD 2 0 ≠ 0 ∨ image_orientation.getD 5 0 ≠ 0 then
    .error .notPlanar
  else
    let rotation := create_rotation_matrix image_orientation
    if rotation 2 2 < 0 then .error .flipped
    else
      let angle := atan2 (-((rotation 0 1 : ℚ) : ℝ)) ((rotation 0 0 : ℚ) : ℝ)
      if in_degrees then .ok (degrees angle) else .ok angle

/-- `map_pixel_into_coordinate_system`: build the forward transform and apply
it once. -/
def map_pixel_into_coordinate_system (coordinate : List ℚ)
    (image_position : List ℚ) (image_orientation : List ℚ)
    (pixel_spacing : List ℚ) : List ℚ :=
  apply_transform coordinate
    (build_transform image_position image_orientation pixel_spacing)

/-- `map_coordinate_into_pixel_matrix`: build the inverse transform and apply
it once (`none` propagates the `SingularTransform` failure). -/
def map_coordinate_into_pixel_matrix (coordinate : List ℚ)
    (image_position : List ℚ) (image_orientation : List ℚ)
    (pixel_spacing : List ℚ) (spacing_between_slices : ℚ) :
    Option (List ℚ) :=
  (build_inverse_transform image_position image_orientation pixel_spacing
    spacing_between_slices).map fun affine =>
      apply_inverse_transform coordinate affine


/-! ## Helper lemmas -/

/-- `inv3` is a left inverse of any 3×3 matrix with nonzero determinant. -/
theorem inv3_mul (A : Matrix (Fin 3) (Fin 3) ℚ) (h : det3 A ≠ 0) :
    inv3 A * A = 1 := by
  ext i j
  fin_cases i <;> fin_cases j <;>
    (simp [inv3, adj3, Matrix.mul_apply, Fin.sum_univ_succ, Matrix.one_apply,
      Matrix.vecHead, Matrix.vecTail]
     field_simp [det3] at h ⊢
     ring)

/-- `inv3` is a right inverse of any 3×3 matrix with nonzero determinant. -/
theorem mul_inv3 (A : Matrix (Fin 3) (Fin 3) ℚ) (h : det3 A ≠ 0) :
    A * inv3 A = 1 := by
  ext i j
  fin_cases i <;> fin_cases j <;>
    (simp [inv3, adj3, Matrix.mul_apply, Fin.sum_univ_succ, Matrix.one_apply,
      Matrix.vecHead, Matrix.vecTail]
     field_simp [det3] at h ⊢
     ring)

/-- Multiplying two affine block matrices composes the linear blocks and
translations. -/
theorem to_affine_mul (A B : Matrix (Fin 3) (Fin 3) ℚ) (t s : Fin 3 → ℚ) :
    to_affine A t * to_affine B s = to_affine (A * B) (A.mulVec s + t) := by
  ext i j
  fin_cases i <;> fin_cases j <;>
    simp [to_affine, Matrix.mul_apply, Matrix.mulVec, Matrix.dotProduct,
      Fin.sum_univ_succ, Matrix.vecHead, Matrix.vecTail, add_assoc]

/-- The affine block matrix with identity linear part and zero translation is
the 4×4 identity. -/
theorem to_affine_one : to_affine 1 0 = (1 : Matrix (Fin 4) (Fin 4) ℚ) := by
  ext i j
  fin_cases i <;> fin_cases j <;>
    simp [to_affine, Matrix.one_apply, Matrix.vecHead, Matrix.vecTail]

/-- The forward transform is the affine matrix whose linear block is the
inverse builder's scaled block at slice spacing 1 and whose translation is the
image position. -/
theorem build_transform_eq (image_position image_orientation pixel_spacing :
    List ℚ) :
    build_transform image_position image_orientation pixel_spacing =
      to_affine (inverse_linear_block image_orientation pixel_spacing 1)
        ![image_position.getD 0 0, image_position.getD 1 0,
          image_position.getD 2 0] := by
  unfold build_transform inverse_linear_block
  ext i j
  fin_cases i <;> fin_cases j <;> simp [to_affine]

/-- Unfolding `build_inverse_transform` on success: the determinant of the
scaled block is nonzero and the result is the affine of its inverse. -/
theorem build_inverse_transform_some {image_position image_orientation
    pixel_spacing : List ℚ} {spacing_between_slices : ℚ}
    {M : Matrix (Fin 4) (Fin 4) ℚ}
    (h : build_inverse_transform image_position image_orientation pixel_spacing
      spacing_between_slices = some M) :
    det3 (inverse_linear_block image_orientation pixel_spacing
        spacing_between_slices) ≠ 0 ∧
      M = to_affine
        (inv3 (inverse_linear_block image_orientation pixel_spacing
          spacing_between_slices))
        (-((inv3 (inverse_linear_block image_orientation pixel_spacing
            spacing_between_slices)).mulVec
          ![image_position.getD 0 0, image_position.getD 1 0,
            image_position.getD 2 0])) := by
  simp only [build_inverse_transform] at h
  by_cases hd : det3 (inverse_linear_block image_orientation pixel_spacing
      spacing_between_slices) = 0
  · rw [if_pos hd] at h
    exact absurd h (by simp)
  · rw [if_neg hd] at h
    exact ⟨hd, (Option.some.inj h).symm⟩

/-- Applying the forward mapper to a 2-vector on an affine block matrix. -/
theorem apply_transform_to_affine (x y : ℚ) (A : Matrix (Fin 3) (Fin 3) ℚ)
    (t : Fin 3 → ℚ) :
    apply_transform [x, y] (to_affine A t) =
      [(A.mulVec ![x, y, 0] + t) 0, (A.mulVec ![x, y, 0] + t) 1,
        (A.mulVec ![x, y, 0] + t) 2] := by
  simp [apply_transform, to_affine, Matrix.mulVec, Matrix.dotProduct,
    Fin.sum_univ_succ, Matrix.vecHead, Matrix.vecTail]
  ring_nf
  tauto

/-- Applying the inverse mapper to a 3-vector on an affine block matrix. -/
theorem apply_inverse_transform_to_affine (x y z : ℚ)
    (A : Matrix (Fin 3) (Fin 3) ℚ) (t : Fin 3 → ℚ) :
    apply_inverse_transform [x, y, z] (to_affine A t) =
      [(A.mulVec ![x, y, z] + t) 0, (A.mulVec ![x, y, z] + t) 1,
        (A.mulVec ![x, y, z] + t) 2] := by
  simp [apply_inverse_transform, to_affine, Matrix.mulVec, Matrix.dotProduct,
    Fin.sum_univ_succ, Matrix.vecHead, Matrix.vecTail]
  ring_nf
  tauto

/-- A 3-vector is determined by its three components. -/
theorem vec3_eta (v : Fin 3 → ℚ) : ![v 0, v 1, v 2] = v := by
  funext i; fin_cases i <;> simp

/-- A vector whose third component is zero does not see the slice-spacing
scaling: the scaled block at any slice spacing agrees with the block at slice
spacing 1 on such vectors. -/
theorem inverse_linear_block_mulVec_planar (image_orientation pixel_spacing :
    List ℚ) (k : ℚ) (x y : ℚ) :
    (inverse_linear_block image_orientation pixel_spacing k).mulVec
        ![x, y, 0] =
      (inverse_linear_block image_orientation pixel_spacing 1).mulVec
        ![x, y, 0] := by
  funext i
  fin_cases i <;>
    simp [inverse_linear_block, Matrix.mulVec, Matrix.dotProduct,
      Fin.sum_univ_succ, Matrix.vecHead, Matrix.vecTail]

/-! ## Claim theorems -/

/-- C3: with position (10,20,30), identity orientation and pixel spacing
(2,3), the forward transform maps pixel (1,1) to (13,22,30): the column index
is scaled by `pixel_spacing[1] = 3` along X and the row index by
`pixel_spacing[0] = 2` along Y. -/
theorem forward_scenario_spacing_convention :
    apply_transform [1, 1]
      (build_transform [10, 20, 30] [1, 0, 0, 0, 1, 0] [2, 3]) =
    [13, 22, 30] := by
  simp [apply_transform, build_transform, create_rotation_matrix, to_affine,
    Matrix.mulVec, Matrix.dotProduct, Fin.sum_univ_succ, Matrix.vecHead,
    Matrix.vecTail]
  norm_num

/-- C6: for every position, orientation and pixel spacing, the forward
transform maps pixel (0,0) exactly to the position vector. -/
theorem apply_transform_origin (px py pz : ℚ)
    (image_orientation pixel_spacing : List ℚ) :
    apply_transform [0, 0]
      (build_transform [px, py, pz] image_orientation pixel_spacing) =
    [px, py, pz] := by
  rw [build_transform_eq, apply_transform_to_affine]
  have h0 : (![0, 0, 0] : Fin 3 → ℚ) = 0 := by
    funext i; fin_cases i <;> rfl
  simp [h0, Matrix.mulVec_zero]

/-- C7: whenever the inverse transform exists, applying it to the position
vector itself yields (0, 0, 0), the slice component being exactly zero. -/
theorem apply_inverse_at_position (px py pz : ℚ)
    (image_orientation pixel_spacing : List ℚ) (spacing_between_slices : ℚ)
    (M : Matrix (Fin 4) (Fin 4) ℚ)
    (h : build_inverse_transform [px, py, pz] image_orientation pixel_spacing
      spacing_between_slices = some M) :
    apply_inverse_transform [px, py, pz] M = [0, 0, 0] := by
  obtain ⟨hd, hM⟩ := build_inverse_transform_some h
  subst hM
  simp only [List.getD, List.getElem?_cons_zero, List.getElem?_cons_succ,
    Option.getD_some]
  rw [apply_inverse_transform_to_affine]
  simp

/-- C7 witness: the inverse at position (10,20,30) with identity orientation
and unit spacing maps the position to (0,0,0). -/
theorem apply_inverse_at_position_witness :
    apply_inverse_transform [10, 20, 30]
      !![1, 0, 0, -10; 0, 1, 0, -20; 0, 0, 1, -30; 0, 0, 0, 1] = [0, 0, 0] :=
  apply_inverse_at_position 10 20 30 [1, 0, 0, 0, 1, 0] [1, 1] 1 _ (by
    simp [build_inverse_transform, inverse_linear_block, create_rotation_matrix,
      det3, inv3, adj3, to_affine, Matrix.mulVec, Matrix.dotProduct,
      Fin.sum_univ_succ, Matrix.vecHead, Matrix.vecTail])

/-- C5: whenever the scaled 3×3 linear block is singular (in particular for
pixel spacing (0,1), which zeroes a column), `build_inverse_transform` fails
with `SingularTransform` (modelled as `none`) and never returns a matrix. -/
theorem build_inverse_transform_singular (image_position image_orientation
    pixel_spacing : List ℚ) (spacing_between_slices : ℚ)
    (h : det3 (inverse_linear_block image_orientation pixel_spacing
      spacing_between_slices) = 0) :
    build_inverse_transform image_position image_orientation pixel_spacing
      spacing_between_slices = none := by
  simp only [build_inverse_transform]
  rw [if_pos h]

/-- C5 witness: pixel spacing (0, 1) makes the scaled block singular, so
building the inverse transform fails. -/
theorem build_inverse_transform_singular_witness :
    build_inverse_transform [0, 0, 0] [1, 0, 0, 0, 1, 0] [0, 1] 1 = none :=
  build_inverse_transform_singular [0, 0, 0] [1, 0, 0, 0, 1, 0] [0, 1] 1 (by
    simp [inverse_linear_block, create_rotation_matrix, det3])

/-- C1: for every position, orientation, nonzero pixel spacing and slice
spacing for which the inverse transform exists, the inverse transform undoes
the forward transform on every 2-vector pixel coordinate, returning its
column and row with slice component 0. -/
theorem round_trip_pixel (px py pz : ℚ)
    (image_orientation pixel_spacing : List ℚ) (spacing_between_slices : ℚ)
    (M : Matrix (Fin 4) (Fin 4) ℚ)
    (hs0 : pixel_spacing.getD 0 0 ≠ 0) (hs1 : pixel_spacing.getD 1 0 ≠ 0)
    (h : build_inverse_transform [px, py, pz] image_orientation pixel_spacing
      spacing_between_slices = some M) (c r : ℚ) :
    apply_inverse_transform
      (apply_transform [c, r]
        (build_transform [px, py, pz] image_orientation pixel_spacing)) M =
    [c, r, 0] := by
  obtain ⟨hd, hM⟩ := build_inverse_transform_some h
  subst hM
  rw [build_transform_eq, apply_transform_to_affine,
    apply_inverse_transform_to_affine, vec3_eta, Matrix.mulVec_add,
    ← inverse_linear_block_mulVec_planar image_orientation pixel_spacing
      spacing_between_slices c r,
    Matrix.mulVec_mulVec, inv3_mul _ hd, Matrix.one_mulVec]
  simp [Matrix.vecHead, Matrix.vecTail, Pi.neg_apply]

/-- C1 witness: a concrete round trip with position (10,20,30), identity
orientation, pixel spacing (2,3) and slice spacing 1 on pixel (7,5). -/
theorem round_trip_pixel_witness :
    (2 : ℚ) ≠ 0 ∧ (3 : ℚ) ≠ 0 ∧
    apply_inverse_transform
      (apply_transform [7, 5]
        (build_transform [10, 20, 30] [1, 0, 0, 0, 1, 0] [2, 3]))
      !![1/3, 0, 0, -10/3; 0, 1/2, 0, -10; 0, 0, 1, -30; 0, 0, 0, 1] =
    [7, 5, 0] :=
  ⟨by norm_num, by norm_num,
    round_trip_pixel 10 20 30 [1, 0, 0, 0, 1, 0] [2, 3] 1 _
      (by norm_num) (by norm_num)
      (by
        simp [build_inverse_transform, inverse_linear_block,
          create_rotation_matrix, det3, inv3, adj3, to_affine, Matrix.mulVec,
          Matrix.dotProduct, Fin.sum_univ_succ, Matrix.vecHead, Matrix.vecTail]
        norm_num [Matrix.ext_iff, Fin.forall_fin_succ, Matrix.vecHead,
          Matrix.vecTail])
      7 5⟩

/-- C2 counterexample: with slice spacing 2, identity orientation, unit pixel
spacing and zero position, the inverse builder succeeds but its matrix is not
an algebraic inverse of the forward matrix: the claim fails for slice
spacings other than 1. -/
theorem forward_inverse_not_inverses_counterexample :
    build_inverse_transform [0, 0, 0] [1, 0, 0, 0, 1, 0] [1, 1] 2 =
      some !![1, 0, 0, 0; 0, 1, 0, 0; 0, 0, 1/2, 0; 0, 0, 0, 1] ∧
    build_transform [0, 0, 0] [1, 0, 0, 0, 1, 0] [1, 1] *
      !![1, 0, 0, 0; 0, 1, 0, 0; 0, 0, 1/2, 0; 0, 0, 0, 1] ≠ 1 := by
  constructor
  · simp [build_inverse_transform, inverse_linear_block, create_rotation_matrix,
      det3, inv3, adj3, to_affine, Matrix.mulVec, Matrix.dotProduct,
      Fin.sum_univ_succ, Matrix.vecHead, Matrix.vecTail]
  · intro hc
    have h22 := congrFun (congrFun hc 2) 2
    simp [build_transform, create_rotation_matrix, to_affine, Matrix.mul_apply,
      Fin.sum_univ_succ, Matrix.vecHead, Matrix.vecTail, Matrix.one_apply]
      at h22

/-- C2 (amended to slice spacing 1, the forward transform taking no slice
spacing): whenever the inverse builder succeeds at slice spacing 1 on the
same position, orientation and pixel spacing as the forward builder, the two
4×4 matrices are exact two-sided algebraic inverses. -/
theorem forward_inverse_product_identity (px py pz : ℚ)
    (image_orientation pixel_spacing : List ℚ)
    (M : Matrix (Fin 4) (Fin 4) ℚ)
    (h : build_inverse_transform [px, py, pz] image_orientation pixel_spacing 1
      = some M) :
    build_transform [px, py, pz] image_orientation pixel_spacing * M = 1 ∧
    M * build_transform [px, py, pz] image_orientation pixel_spacing = 1 := by
  obtain ⟨hd, hM⟩ := build_inverse_transform_some h
  subst hM
  rw [build_transform_eq]
  constructor
  · rw [to_affine_mul, mul_inv3 _ hd, Matrix.mulVec_neg, Matrix.mulVec_mulVec,
      mul_inv3 _ hd, Matrix.one_mulVec]
    rw [neg_add_cancel, to_affine_one]
  · rw [to_affine_mul, inv3_mul _ hd]
    rw [add_neg_cancel, to_affine_one]

/-- C2 witness: at position (1,2,3), identity orientation, unit spacing and
slice spacing 1, the forward and inverse matrices multiply to the identity in
both orders. -/
theorem forward_inverse_product_identity_witness :
    build_transform [1, 2, 3] [1, 0, 0, 0, 1, 0] [1, 1] *
      !![1, 0, 0, -1; 0, 1, 0, -2; 0, 0, 1, -3; 0, 0, 0, 1] = 1 ∧
    !![1, 0, 0, -1; 0, 1, 0, -2; 0, 0, 1, -3; 0, 0, 0, 1] *
      build_transform [1, 2, 3] [1, 0, 0, 0, 1, 0] [1, 1] = 1 :=
  forward_inverse_product_identity 1 2 3 [1, 0, 0, 0, 1, 0] [1, 1] _ (by
    simp [build_inverse_transform, inverse_linear_block, create_rotation_matrix,
      det3, inv3, adj3, to_affine, Matrix.mulVec, Matrix.dotProduct,
      Fin.sum_univ_succ, Matrix.vecHead, Matrix.vecTail])

/-- C4 counterexample: for orientation (0,1,1, 1,0,0) the basis entry [2,2]
is negative, yet `compute_rotation` fails with the planar-rotation error, not
the flipped-orientation error: the planarity check fires first. -/
theorem compute_rotation_flip_whenever_counterexample :
    create_rotation_matrix [0, 1, 1, 1, 0, 0] 2 2 < 0 ∧
    compute_rotation [0, 1, 1, 1, 0, 0] false ≠ .error .flipped ∧
    compute_rotation [0, 1, 1, 1, 0, 0] false = .error .notPlanar := by
  refine ⟨?_, ?_, ?_⟩
  · simp [create_rotation_matrix]
  · simp [compute_rotation]
  · simp [compute_rotation]

/-- C4 (amended: the flipped error presupposes that the planarity check
passed): `compute_rotation` fails with the planar error exactly when
orientation index 2 or 5 is nonzero; it fails with the flipped error exactly
when both are zero and the basis entry [2,2] is negative; in every other case
it returns an angle. -/
theorem compute_rotation_error_cases (image_orientation : List ℚ)
    (in_degrees : Bool) :
    (compute_rotation image_orientation in_degrees = .error .notPlanar ↔
      (image_orientation.getD 2 0 ≠ 0 ∨ image_orientation.getD 5 0 ≠ 0)) ∧
    (compute_rotation image_orientation in_degrees = .error .flipped ↔
      (image_orientation.getD 2 0 = 0 ∧ image_orientation.getD 5 0 = 0 ∧
        create_rotation_matrix image_orientation 2 2 < 0)) ∧
    ((image_orientation.getD 2 0 = 0 ∧ image_orientation.getD 5 0 = 0 ∧
        ¬ create_rotation_matrix image_orientation 2 2 < 0) →
      compute_rotation image_orientation in_degrees =
        .ok (rotation_angle image_orientation in_degrees)) := by
  by_cases h1 : image_orientation.getD 2 0 ≠ 0 ∨ image_orientation.getD 5 0 ≠ 0
  · have hres : compute_rotation image_orientation in_degrees =
        .error .notPlanar := by
      simp only [compute_rotation]
      rw [if_pos h1]
    rw [hres]
    refine ⟨iff_of_true rfl h1, iff_of_false (by simp) ?_, ?_⟩
    · rintro ⟨hh2, hh5, -⟩
      rcases h1 with hx | hx
      · exact hx hh2
      · exact hx hh5
    · rintro ⟨hh2, hh5, -⟩
      rcases h1 with hx | hx
      · exact absurd hh2 hx
      · exact absurd hh5 hx
  · push_neg at h1
    obtain ⟨h2, h5⟩ := h1
    have h1' : ¬(image_orientation.getD 2 0 ≠ 0 ∨
        image_orientation.getD 5 0 ≠ 0) := by
      push_neg
      exact ⟨h2, h5⟩
    by_cases hz : create_rotation_matrix image_orientation 2 2 < 0
    · have hres : compute_rotation image_orientation in_degrees =
          .error .flipped := by
        simp only [compute_rotation]
        rw [if_neg h1', if_pos hz]
      rw [hres]
      refine ⟨iff_of_false (by simp) ?_, iff_of_true rfl ⟨h2, h5, hz⟩, ?_⟩
      · rintro (hx | hx)
        · exact hx h2
        · exact hx h5
      · rintro ⟨-, -, hnlt⟩
        exact absurd hz hnlt
    · have hres : compute_rotation image_orientation in_degrees =
          .ok (rotation_angle image_orientation in_degrees) := by
        simp only [compute_rotation, rotation_angle]
        rw [if_neg h1', if_neg hz]
        cases in_degrees <;> rfl
      rw [hres]
      refine ⟨iff_of_false (by simp) ?_, iff_of_false (by simp) ?_,
        fun _ => rfl⟩
      · rintro (hx | hx)
        · exact hx h2
        · exact hx h5
      · rintro ⟨-, -, hlt⟩
        exact hz hlt

/-- C4 witness: a nonzero z-component on the column cosines produces the
planar-rotation error. -/
theorem compute_rotation_error_cases_witness :
    compute_rotation [1, 0, 0, 0, 0, 1] false = .error .notPlanar :=
  (compute_rotation_error_cases [1, 0, 0, 0, 0, 1] false).1.mpr (by simp)

/-- C8: once both checks pass, `compute_rotation` returns
`atan2(-R[0,1], R[0,0])` over the constructed basis, converted to degrees
when requested; the identity orientation gives 0 and the 90° orientation
(0,1,0, -1,0,0) gives 90 in degrees. -/
theorem compute_rotation_angle_values (image_orientation : List ℚ)
    (in_degrees : Bool)
    (h2 : image_orientation.getD 2 0 = 0) (h5 : image_orientation.getD 5 0 = 0)
    (hz : ¬ create_rotation_matrix image_orientation 2 2 < 0) :
    compute_rotation image_orientation in_degrees =
      .ok (rotation_angle image_orientation in_degrees) ∧
    compute_rotation [1, 0, 0, 0, 1, 0] false = .ok 0 ∧
    compute_rotation [0, 1, 0, -1, 0, 0] true = .ok 90 := by
  refine ⟨?_, ?_, ?_⟩
  · have h1' : ¬(image_orientation.getD 2 0 ≠ 0 ∨
        image_orientation.getD 5 0 ≠ 0) := by
      push_neg
      exact ⟨h2, h5⟩
    simp only [compute_rotation, rotation_angle]
    rw [if_neg h1', if_neg hz]
    cases in_degrees <;> rfl
  · simp [compute_rotation, create_rotation_matrix, atan2]
  · simp [compute_rotation, create_rotation_matrix, atan2, degrees]
    norm_num
    field_simp
    ring

/-- C8 witness: instantiated at the identity orientation in radians. -/
theorem compute_rotation_angle_values_witness :
    compute_rotation [1, 0, 0, 0, 1, 0] false =
      .ok (rotation_angle [1, 0, 0, 0, 1, 0] false) ∧
    compute_rotation [1, 0, 0, 0, 1, 0] false = .ok 0 ∧
    compute_rotation [0, 1, 0, -1, 0, 0] true = .ok 90 :=
  compute_rotation_angle_values [1, 0, 0, 0, 1, 0] false (by simp) (by simp)
    (by simp [create_rotation_matrix])

/-- C10: an orientation with both z-components exactly zero whose basis has
normal z exactly zero (degenerate, e.g. linearly dependent cosines) passes
both checks — the flip check rejects only strictly negative normal z — and
`compute_rotation` returns the atan2-based angle with no error. -/
theorem compute_rotation_degenerate_no_error (image_orientation : List ℚ)
    (in_degrees : Bool)
    (h2 : image_orientation.getD 2 0 = 0) (h5 : image_orientation.getD 5 0 = 0)
    (hz : create_rotation_matrix image_orientation 2 2 = 0) :
    compute_rotation image_orientation in_degrees =
      .ok (rotation_angle image_orientation in_degrees) := by
  have hlt : ¬ create_rotation_matrix image_orientation 2 2 < 0 := by
    rw [hz]
    exact lt_irrefl 0
  have h1' : ¬(image_orientation.getD 2 0 ≠ 0 ∨
      image_orientation.getD 5 0 ≠ 0) := by
    push_neg
    exact ⟨h2, h5⟩
  simp only [compute_rotation, rotation_angle]
  rw [if_neg h1', if_neg hlt]
  cases in_degrees <;> rfl

/-- C10 witness: the degenerate orientation (1,0,0, 1,0,0) (row equals
column) raises no error. -/
theorem compute_rotation_degenerate_no_error_witness :
    compute_rotation [1, 0, 0, 1, 0, 0] false =
      .ok (rotation_angle [1, 0, 0, 1, 0, 0] false) :=
  compute_rotation_degenerate_no_error [1, 0, 0, 1, 0, 0] false (by simp)
    (by simp)
    (by simp [create_rotation_matrix, Matrix.vecHead, Matrix.vecTail])

/-- C9 counterexample: the pixel-to-reference apply ignores a third input
component entirely (it always pads z = 0), even under a matrix whose z-column
would propagate it: the claim that the third component affects the output is
false. -/
theorem apply_transform_third_component_counterexample :
    apply_transform [0, 0, 5]
        (build_transform [0, 0, 0] [1, 0, 0, 0, 1, 0] [1, 1]) =
      apply_transform [0, 0, 0]
        (build_transform [0, 0, 0] [1, 0, 0, 0, 1, 0] [1, 1]) ∧
    apply_transform [0, 0, 5]
        (build_transform [0, 0, 0] [1, 0, 0, 0, 1, 0] [1, 1]) ≠
      [0, 0, 5] := by
  constructor
  · simp [apply_transform]
  · simp [apply_transform, build_transform, create_rotation_matrix, to_affine,
      Matrix.mulVec, Matrix.dotProduct, Fin.sum_univ_succ, Matrix.vecHead,
      Matrix.vecTail]

/-- C9 (amended: the pixel-to-reference apply reads only the first two
components, padding z = 0 and w = 1, so a third input component never affects
it; the reference-to-pixel apply reads three components and pads w = 1; both
multiply the padded point by the matrix and return the first three
components). -/
theorem apply_transform_components (x y z : ℚ)
    (affine : Matrix (Fin 4) (Fin 4) ℚ) :
    apply_transform [x, y, z] affine = apply_transform [x, y] affine ∧
    apply_transform [x, y] affine =
      [affine.mulVec ![x, y, 0, 1] 0, affine.mulVec ![x, y, 0, 1] 1,
        affine.mulVec ![x, y, 0, 1] 2] ∧
    apply_inverse_transform [x, y, z] affine =
      [affine.mulVec ![x, y, z, 1] 0, affine.mulVec ![x, y, z, 1] 1,
        affine.mulVec ![x, y, z, 1] 2] := by
  refine ⟨?_, ?_, ?_⟩ <;> simp [apply_transform, apply_inverse_transform]

end HighdicomSpatial
